import Mathlib

set_option maxRecDepth 100000

/-!
Shallow embedding of `src/main.py`: a two-player console tic-tac-toe game
built on two 9-bit bitboards.  The mutable singleton `Game_Ops` becomes a
structure passed explicitly through each operation; the blocking input loop
becomes a pure function over the list of strings the user would type.
-/

/-- The state of the Python singleton `Game_Ops`: `self.boardStates = [0, 0]`
(one 9-bit mask per player), `self.playerCount = 0` (current player index) and
`self.turnCount = 0` (turn counter). -/
structure Game_Ops where
  boardStates0 : Nat
  boardStates1 : Nat
  playerCount : Nat
  turnCount : Nat
  deriving DecidableEq

/-- List indexing `self.boardStates[p]` for the two-element list. -/
def Game_Ops.boardStates (g : Game_Ops) (p : Nat) : Nat :=
  if p = 0 then g.boardStates0 else g.boardStates1

/-- The state built by `Game_Ops.__init__`: both masks zero, player index
zero, turn counter zero. -/
def Game_Ops.init : Game_Ops :=
  { boardStates0 := 0, boardStates1 := 0, playerCount := 0, turnCount := 0 }

/-- `insert_index`: `self.boardStates[self.playerCount] =
self.boardStates[self.playerCount] | (1 << insertIndex)`. -/
def Game_Ops.insert_index (g : Game_Ops) (insertIndex : Nat) : Game_Ops :=
  if g.playerCount = 0 then
    { g with boardStates0 := g.boardStates0 ||| (1 <<< insertIndex) }
  else
    { g with boardStates1 := g.boardStates1 ||| (1 <<< insertIndex) }

/-- `is_in_board_state`: `any(boardState & (1 << insertIndex) != 0 for
boardState in self.boardStates)`. -/
def Game_Ops.is_in_board_state (g : Game_Ops) (insertIndex : Nat) : Bool :=
  [g.boardStates0, g.boardStates1].any
    (fun boardState => boardState &&& (1 <<< insertIndex) != 0)

/-- The fixed win-condition list `[7, 56, 448, 73, 146, 292, 273, 84]`. -/
def winNums : List Nat := [7, 56, 448, 73, 146, 292, 273, 84]

/-- `is_win`: `any(self.boardStates[self.playerCount] & winNum == winNum for
winNum in [7, 56, 448, 73, 146, 292, 273, 84])`. -/
def Game_Ops.is_win (g : Game_Ops) : Bool :=
  winNums.any (fun winNum => g.boardStates g.playerCount &&& winNum == winNum)

/-- `update_player_count`: `self.playerCount = (self.playerCount + 1) % 2`. -/
def Game_Ops.update_player_count (g : Game_Ops) : Game_Ops :=
  { g with playerCount := (g.playerCount + 1) % 2 }

/-- `update_turn`: `self.turnCount += num`. -/
def Game_Ops.update_turn (g : Game_Ops) (num : Nat) : Game_Ops :=
  { g with turnCount := g.turnCount + num }

/-- The cell triples of the 3 rows, 3 columns and 2 diagonals of the 3 by 3
board under the row-major cell numbering 0..8 drawn in the class docstring. -/
def lineCells : List (List Nat) :=
  [[0, 1, 2], [3, 4, 5], [6, 7, 8],
   [0, 3, 6], [1, 4, 7], [2, 5, 8],
   [0, 4, 8], [2, 4, 6]]

/-- The bitmask of a set of cells: OR of the left-shifted single bits. -/
def lineMask (cells : List Nat) : Nat :=
  cells.foldl (fun acc c => acc ||| (1 <<< c)) 0

/-- A nonzero AND with a shifted single bit is exactly a testBit query. -/
theorem and_shift_ne_zero (m i : Nat) :
    (m &&& (1 <<< i) != 0) = m.testBit i := by
  rw [Nat.shiftLeft_eq, one_mul, Nat.and_two_pow]
  cases h : m.testBit i <;> simp [h, (Nat.two_pow_pos i).ne']

/-- `is_in_board_state` is false exactly when bit `i` is clear in both
masks. -/
theorem is_in_board_state_eq_false (g : Game_Ops) (i : Nat) :
    g.is_in_board_state i = false ↔
      g.boardStates0.testBit i = false ∧ g.boardStates1.testBit i = false := by
  simp only [Game_Ops.is_in_board_state, List.any_cons, List.any_nil,
    Bool.or_false, Bool.or_eq_false_iff, and_shift_ne_zero]

/-- C7: starting from the initial state (player index 0, both masks zero),
inserting at cells 0, 1 and 2 in sequence yields `boardStates[0] = 7`, and
`is_win()` for the current player (still player 0) then returns true. -/
theorem c7_top_row_win :
    (((Game_Ops.init.insert_index 0).insert_index 1).insert_index 2).boardStates0 = 7 ∧
    (((Game_Ops.init.insert_index 0).insert_index 1).insert_index 2).playerCount = 0 ∧
    (((Game_Ops.init.insert_index 0).insert_index 1).insert_index 2).is_win = true := by
  decide

/-- C1: for all 9-bit masks and player index p below 2, `is_win()` is true
iff some win mask is a submask of the current player's mask, and the 8 win
numbers are exactly the masks of the 3 rows, 3 columns and 2 diagonals. -/
theorem c1_is_win_iff_submask :
    (∀ m0 m1 p t, m0 < 512 → m1 < 512 → p < 2 →
      ((Game_Ops.mk m0 m1 p t).is_win = true ↔
        ∃ winNum ∈ winNums, (if p = 0 then m0 else m1) &&& winNum = winNum)) ∧
    winNums = lineCells.map lineMask := by
  constructor
  · intro m0 m1 p t _ _ _
    simp [Game_Ops.is_win, Game_Ops.boardStates, List.any_eq_true]
  · decide

/-- Witness for C1 at the concrete state of the docstring example: player 0
holds mask 84 (cells 2, 4, 6), which covers the win mask 84. -/
theorem c1_witness :
    (84 : Nat) < 512 ∧ (0 : Nat) < 512 ∧ (0 : Nat) < 2 ∧
      ((Game_Ops.mk 84 0 0 0).is_win = true ↔
        ∃ winNum ∈ winNums, (if (0 : Nat) = 0 then (84 : Nat) else 0) &&& winNum = winNum) :=
  ⟨by decide, by decide, by decide,
    c1_is_win_iff_submask.1 84 0 0 0 (by decide) (by decide) (by decide)⟩

/-- C9: `is_win()` reads only the player index and the current player's mask,
so two states agreeing on those (the opponent's mask arbitrary) give the same
result. -/
theorem c9_is_win_ignores_opponent (g g' : Game_Ops)
    (hp : g.playerCount < 2)
    (hidx : g'.playerCount = g.playerCount)
    (hmask : g'.boardStates g'.playerCount = g.boardStates g.playerCount) :
    g'.is_win = g.is_win := by
  unfold Game_Ops.is_win
  rw [hmask]

/-- Witness for C9: states `(7, 0, 0, 0)` and `(7, 511, 0, 5)` differ only in
the opponent's mask and the turn counter, and `is_win` agrees on them. -/
theorem c9_witness :
    (Game_Ops.mk 7 0 0 0).playerCount < 2 ∧
    (Game_Ops.mk 7 511 0 5).playerCount = (Game_Ops.mk 7 0 0 0).playerCount ∧
    (Game_Ops.mk 7 511 0 5).boardStates (Game_Ops.mk 7 511 0 5).playerCount =
      (Game_Ops.mk 7 0 0 0).boardStates (Game_Ops.mk 7 0 0 0).playerCount ∧
    (Game_Ops.mk 7 511 0 5).is_win = (Game_Ops.mk 7 0 0 0).is_win :=
  ⟨by decide, by decide, by decide,
    c9_is_win_ignores_opponent (Game_Ops.mk 7 0 0 0) (Game_Ops.mk 7 511 0 5)
      (by decide) (by decide) (by decide)⟩

/-- C10: `insert_index i` changes only the current player's mask, which
becomes the old mask OR the single bit at `i` (hence a superset of the old
mask); the opponent's mask, the player index and the turn counter are
untouched. -/
theorem c10_insert_index_frame (g : Game_Ops) (i : Nat) (hp : g.playerCount < 2) :
    (g.insert_index i).boardStates g.playerCount =
      g.boardStates g.playerCount ||| (1 <<< i) ∧
    (g.insert_index i).boardStates (1 - g.playerCount) =
      g.boardStates (1 - g.playerCount) ∧
    (g.insert_index i).playerCount = g.playerCount ∧
    (g.insert_index i).turnCount = g.turnCount ∧
    (∀ j, (g.boardStates g.playerCount).testBit j = true →
      ((g.insert_index i).boardStates g.playerCount).testBit j = true) := by
  have hcase : g.playerCount = 0 ∨ g.playerCount = 1 := by omega
  rcases hcase with h | h <;>
    simp [Game_Ops.insert_index, Game_Ops.boardStates, h, Nat.testBit_or] <;>
    exact fun j hj => Or.inl hj

/-- Witness for C10 at the state `(20, 40, 0, 2)` inserting at cell 6. -/
theorem c10_witness :
    (Game_Ops.mk 20 40 0 2).playerCount < 2 ∧
    ((Game_Ops.mk 20 40 0 2).insert_index 6).boardStates
        (Game_Ops.mk 20 40 0 2).playerCount =
      (Game_Ops.mk 20 40 0 2).boardStates (Game_Ops.mk 20 40 0 2).playerCount |||
        (1 <<< 6) :=
  ⟨by decide, (c10_insert_index_frame (Game_Ops.mk 20 40 0 2) 6 (by decide)).1⟩

/-- C3: placing at a free cell `i` (free in both masks) marks it: afterwards
`is_in_board_state i` is true, bit `i` is set in the current player's mask
and still clear in the other player's mask. -/
theorem c3_place_marks_current_only (g : Game_Ops) (i : Nat) (hi : i ≤ 8)
    (hp : g.playerCount < 2) (hfree : g.is_in_board_state i = false) :
    (g.insert_index i).is_in_board_state i = true ∧
    ((g.insert_index i).boardStates g.playerCount).testBit i = true ∧
    ((g.insert_index i).boardStates (1 - g.playerCount)).testBit i = false := by
  obtain ⟨h0, h1⟩ := (is_in_board_state_eq_false g i).mp hfree
  have hbit : Nat.testBit (1 <<< i) i = true := by
    rw [Nat.shiftLeft_eq, one_mul]
    exact Nat.testBit_two_pow_self
  have hcase : g.playerCount = 0 ∨ g.playerCount = 1 := by omega
  rcases hcase with h | h <;>
    simp [Game_Ops.insert_index, Game_Ops.boardStates, Game_Ops.is_in_board_state, h,
      and_shift_ne_zero, Nat.testBit_or, h0, h1, hbit]

/-- Witness for C3 at the state `(20, 40, 0, 2)` placing at free cell 0. -/
theorem c3_witness :
    (0 : Nat) ≤ 8 ∧ (Game_Ops.mk 20 40 0 2).playerCount < 2 ∧
    (Game_Ops.mk 20 40 0 2).is_in_board_state 0 = false ∧
    (((Game_Ops.mk 20 40 0 2).insert_index 0).is_in_board_state 0 = true ∧
      (((Game_Ops.mk 20 40 0 2).insert_index 0).boardStates
          (Game_Ops.mk 20 40 0 2).playerCount).testBit 0 = true ∧
      (((Game_Ops.mk 20 40 0 2).insert_index 0).boardStates
          (1 - (Game_Ops.mk 20 40 0 2).playerCount)).testBit 0 = false) :=
  ⟨by decide, by decide, by decide,
    c3_place_marks_current_only (Game_Ops.mk 20 40 0 2) 0 (by decide) (by decide) (by decide)⟩

/-- C6: for a valid player index, `update_player_count` maps p to 1 - p, is
an involution and keeps the index in 0..1; `update_turn 1` adds exactly 1 to
the turn counter; and their composition after a placement (the code run after
each non-winning placement in `main`) toggles the player and adds one turn. -/
theorem c6_advance_turn (g : Game_Ops) (hp : g.playerCount < 2) :
    g.update_player_count.playerCount = 1 - g.playerCount ∧
    g.update_player_count.update_player_count.playerCount = g.playerCount ∧
    g.update_player_count.playerCount < 2 ∧
    (g.update_turn 1).turnCount = g.turnCount + 1 ∧
    (∀ i, (((g.insert_index i).update_player_count).update_turn 1).playerCount =
        1 - g.playerCount ∧
      (((g.insert_index i).update_player_count).update_turn 1).turnCount =
        g.turnCount + 1) := by
  have hcase : g.playerCount = 0 ∨ g.playerCount = 1 := by omega
  rcases hcase with h | h <;>
    simp [Game_Ops.update_player_count, Game_Ops.update_turn, Game_Ops.insert_index, h]

/-- Witness for C6 at the state `(20, 40, 1, 3)`. -/
theorem c6_witness :
    (Game_Ops.mk 20 40 1 3).playerCount < 2 ∧
    (Game_Ops.mk 20 40 1 3).update_player_count.playerCount =
      1 - (Game_Ops.mk 20 40 1 3).playerCount ∧
    ((Game_Ops.mk 20 40 1 3).update_turn 1).turnCount =
      (Game_Ops.mk 20 40 1 3).turnCount + 1 :=
  ⟨by decide, (c6_advance_turn (Game_Ops.mk 20 40 1 3) (by decide)).1,
    (c6_advance_turn (Game_Ops.mk 20 40 1 3) (by decide)).2.2.2.1⟩

/-- `ReachN n g`: the state is `g` at the head of the `main` loop after `n`
complete non-winning iterations.  Each iteration performs a placement whose
index `frontend_ask_input` has validated (an integer 0..8 whose cell is free
in both masks), observes `is_win()` false, then runs `update_player_count()`
and `update_turn(1)`; the loop guard is `turnCount < 9`. -/
inductive ReachN : Nat → Game_Ops → Prop
  | init : ReachN 0 Game_Ops.init
  | step {n : Nat} {g : Game_Ops} (i : Nat) :
      ReachN n g → g.turnCount < 9 → i ≤ 8 → g.is_in_board_state i = false →
      (g.insert_index i).is_win = false →
      ReachN (n + 1) (((g.insert_index i).update_player_count).update_turn 1)

/-- A state observed at any point of the game: a loop-head state, or the
state just after a validated `insert_index` (including a winning final state;
the `update_player_count` and `update_turn` calls that follow a non-winning
placement do not touch the masks). -/
inductive Reachable : Game_Ops → Prop
  | head {n : Nat} {g : Game_Ops} : ReachN n g → Reachable g
  | placed {n : Nat} {g : Game_Ops} (i : Nat) :
      ReachN n g → g.turnCount < 9 → i ≤ 8 → g.is_in_board_state i = false →
      Reachable (g.insert_index i)

/-- The number of marks on the board: how many of the cells 0..8 are set in
the union of the two players' masks. -/
def marksCount (g : Game_Ops) : Nat :=
  ((Finset.range 9).filter
    (fun j => (g.boardStates0 ||| g.boardStates1).testBit j)).card

/-- OR-ing a fresh single bit into one mask preserves disjointness of the two
masks. -/
theorem or_two_pow_and_eq_zero {a b i : Nat}
    (hd : a &&& b = 0) (hb : b.testBit i = false) :
    (a ||| (1 <<< i)) &&& b = 0 := by
  have hbd : ∀ j, a.testBit j = true → b.testBit j = false := by
    intro j hja
    have hj := congrArg (fun m => Nat.testBit m j) hd
    simpa [Nat.testBit_and, hja] using hj
  apply Nat.eq_of_testBit_eq
  intro j
  rw [Nat.shiftLeft_eq, one_mul]
  by_cases hj : j = i
  · subst hj
    simp [Nat.testBit_and, Nat.testBit_or, hb]
  · simp only [Nat.testBit_and, Nat.testBit_or, Nat.zero_testBit,
      Nat.testBit_two_pow_of_ne (fun h => hj h.symm), Bool.or_false]
    cases hc : a.testBit j
    · simp
    · simp [hbd j hc]

/-- `insert_index` at a cell free in both masks preserves disjointness. -/
theorem insert_index_disjoint {g : Game_Ops} {i : Nat}
    (hd : g.boardStates0 &&& g.boardStates1 = 0)
    (hfree : g.is_in_board_state i = false) :
    (g.insert_index i).boardStates0 &&& (g.insert_index i).boardStates1 = 0 := by
  obtain ⟨h0, h1⟩ := (is_in_board_state_eq_false g i).mp hfree
  by_cases h : g.playerCount = 0
  · simpa [Game_Ops.insert_index, h] using or_two_pow_and_eq_zero hd h1
  · have hd' : g.boardStates1 &&& g.boardStates0 = 0 := by
      rwa [Nat.and_comm]
    have := or_two_pow_and_eq_zero hd' h0
    simpa [Game_Ops.insert_index, h, Nat.and_comm] using this

/-- `insert_index` ORs the inserted bit into the union of the two masks. -/
theorem insert_index_union (g : Game_Ops) (i : Nat) :
    (g.insert_index i).boardStates0 ||| (g.insert_index i).boardStates1 =
      (g.boardStates0 ||| g.boardStates1) ||| (1 <<< i) := by
  by_cases h : g.playerCount = 0 <;>
    · simp only [Game_Ops.insert_index, h, if_true, if_false]
      apply Nat.eq_of_testBit_eq
      intro j
      simp [Nat.testBit_or, Bool.or_comm, Bool.or_left_comm, Bool.or_assoc]

/-- Placing at a free cell `i` with `i ≤ 8` raises the mark count by one. -/
theorem marksCount_insert {g : Game_Ops} {i : Nat} (hi : i ≤ 8)
    (hfree : g.is_in_board_state i = false) :
    marksCount (g.insert_index i) = marksCount g + 1 := by
  obtain ⟨h0, h1⟩ := (is_in_board_state_eq_false g i).mp hfree
  have hu : (g.boardStates0 ||| g.boardStates1).testBit i = false := by
    simp [Nat.testBit_or, h0, h1]
  unfold marksCount
  rw [insert_index_union]
  have hpred : ∀ j ∈ Finset.range 9,
      ((((g.boardStates0 ||| g.boardStates1) ||| (1 <<< i)).testBit j = true) ↔
        ((g.boardStates0 ||| g.boardStates1).testBit j = true ∨ j = i)) := by
    intro j _
    rw [Nat.testBit_or, Nat.shiftLeft_eq, one_mul, Nat.testBit_two_pow]
    cases hc : (g.boardStates0 ||| g.boardStates1).testBit j <;> simp [eq_comm]
  rw [Finset.filter_congr hpred, Finset.filter_or, Finset.filter_eq',
    if_pos (Finset.mem_range.mpr (by omega)),
    Finset.card_union_of_disjoint (by
      rw [Finset.disjoint_singleton_right, Finset.mem_filter]
      exact fun hmem => by simp [hu] at hmem),
    Finset.card_singleton]

/-- The one-piece loop invariant of `main`: at every loop-head state the two
masks are disjoint, the player index is 0 or 1, the turn counter equals the
iteration count, which equals the number of marks on the board and is at
most 9. -/
theorem reachN_inv {n : Nat} {g : Game_Ops} (h : ReachN n g) :
    g.boardStates0 &&& g.boardStates1 = 0 ∧ g.playerCount < 2 ∧
    g.turnCount = n ∧ marksCount g = n ∧ n ≤ 9 := by
  induction h with
  | init =>
    refine ⟨by decide, by decide, by decide, by decide, by omega⟩
  | @step m s i hr hturn hi hfree hwin ih =>
    obtain ⟨hd, hp, ht, hm, hmax⟩ := ih
    have hmi := marksCount_insert hi hfree
    refine ⟨?_, ?_, ?_, ?_, by omega⟩
    · simpa [Game_Ops.update_player_count, Game_Ops.update_turn] using
        insert_index_disjoint hd hfree
    · simp [Game_Ops.update_player_count, Game_Ops.update_turn]
      omega
    · by_cases hq : s.playerCount = 0 <;>
        simp [Game_Ops.update_player_count, Game_Ops.update_turn,
          Game_Ops.insert_index, hq] <;> omega
    · have hsame : marksCount (((s.insert_index i).update_player_count).update_turn 1) =
          marksCount (s.insert_index i) := rfl
      omega

/-- C2: in every state the game loop reaches from the initial state, the two
players' masks are disjoint; the input loop only hands over indices it has
verified unoccupied in both masks, and the remaining operations never set a
bit. -/
theorem c2_masks_disjoint {g : Game_Ops} (h : Reachable g) :
    g.boardStates0 &&& g.boardStates1 = 0 := by
  cases h with
  | head hr => exact (reachN_inv hr).1
  | placed i hr hturn hi hfree => exact insert_index_disjoint (reachN_inv hr).1 hfree

/-- Witness for C2 at the initial state. -/
theorem c2_witness :
    Game_Ops.init.boardStates0 &&& Game_Ops.init.boardStates1 = 0 :=
  c2_masks_disjoint (Reachable.head ReachN.init)

/-- Loop-head states of a concrete game: player 0 plays 0, 1, 2 and player 1
interleaves 3, 4. -/
def traceG1 : Game_Ops :=
  ((Game_Ops.init.insert_index 0).update_player_count).update_turn 1

def traceG2 : Game_Ops :=
  ((traceG1.insert_index 3).update_player_count).update_turn 1

def traceG3 : Game_Ops :=
  ((traceG2.insert_index 1).update_player_count).update_turn 1

def traceG4 : Game_Ops :=
  ((traceG3.insert_index 4).update_player_count).update_turn 1

/-- The final state of that game: player 0 completes the top row with cell 2;
`main` prints the winner and exits without running `update_turn`. -/
def traceWin : Game_Ops := traceG4.insert_index 2

theorem reachN_traceG1 : ReachN 1 traceG1 :=
  ReachN.step 0 ReachN.init (by decide) (by decide) (by decide) (by decide)

theorem reachN_traceG2 : ReachN 2 traceG2 :=
  ReachN.step 3 reachN_traceG1 (by decide) (by decide) (by decide) (by decide)

theorem reachN_traceG3 : ReachN 3 traceG3 :=
  ReachN.step 1 reachN_traceG2 (by decide) (by decide) (by decide) (by decide)

theorem reachN_traceG4 : ReachN 4 traceG4 :=
  ReachN.step 4 reachN_traceG3 (by decide) (by decide) (by decide) (by decide)

/-- C4 counterexample: a reachable winning final state carries 5 marks but a
turn counter of 4 — on a winning placement `main` exits before `update_turn`,
so the counter does not equal the number of marks placed there. -/
theorem c4_counterexample :
    Reachable traceWin ∧ traceWin.is_win = true ∧
    marksCount traceWin = 5 ∧ traceWin.turnCount = 4 ∧
    ¬ traceWin.turnCount = marksCount traceWin :=
  ⟨Reachable.placed 2 reachN_traceG4 (by decide) (by decide) (by decide),
    by decide, by decide, by decide, by decide⟩

/-- C4 (amended): at every evaluation of the loop guard the turn counter
equals the number of completed (necessarily non-winning) placements, which is
the number of marks on the board, and stays at most 9; the loop exits into
the draw branch exactly when the counter reaches 9.  A winning placement
instead exits the program before the counter is incremented. -/
theorem c4_turn_counter {n : Nat} {g : Game_Ops} (h : ReachN n g) :
    g.turnCount = n ∧ marksCount g = n ∧ g.turnCount ≤ 9 ∧
    (¬ g.turnCount < 9 ↔ g.turnCount = 9) := by
  obtain ⟨-, -, ht, hm, hmax⟩ := reachN_inv h
  exact ⟨ht, hm, by omega, by omega⟩

/-- Witness for C4 after one completed turn. -/
theorem c4_witness :
    traceG1.turnCount = 1 ∧ marksCount traceG1 = 1 ∧ traceG1.turnCount ≤ 9 ∧
    (¬ traceG1.turnCount < 9 ↔ traceG1.turnCount = 9) :=
  c4_turn_counter reachN_traceG1

/-- The strings the range check accepts: `[f'{i}' for i in range(0, 9)]`. -/
def validIndexStrings : List String := (List.range 9).map (fun i => toString i)

/-- Python `int()` on the digit strings that pass the range check: the base-10
fold over the characters. -/
def strToNat (s : String) : Nat :=
  s.data.foldl (fun n c => n * 10 + (c.toNat - Char.toNat '0')) 0

/-- `frontend_ask_input` with the sequence of lines the user types made
explicit.  Each loop iteration consumes one line; a line outside the accepted
strings, or one naming an occupied cell (checked through
`Game_Ops.is_in_board_state`), is rejected and the loop retries on the rest;
an accepted line returns its index.  `none` models a user who never supplies
a valid line (in the program the loop would block forever). -/
def frontend_ask_input (g : Game_Ops) : List String → Option Nat
  | [] => none
  | inputIndex :: rest =>
    if inputIndex ∈ validIndexStrings then
      if g.is_in_board_state (strToNat inputIndex) = true then
        frontend_ask_input g rest
      else some (strToNat inputIndex)
    else frontend_ask_input g rest

/-- Every accepted input string denotes an index at most 8. -/
theorem valid_strToNat_le : ∀ s ∈ validIndexStrings, strToNat s ≤ 8 := by decide

/-- C5: a returned move is always valid — the index is in 0..8 and its cell
is free in both masks — and each rejection (string not accepted, or cell
occupied) merely recurses on the remaining input with the state untouched:
`frontend_ask_input` only reads the state, so no mask, the turn counter and
the player index can change on a retry. -/
theorem c5_ask_input_validates (g : Game_Ops) (inputs : List String) (i : Nat)
    (h : frontend_ask_input g inputs = some i) :
    (i ≤ 8 ∧ g.is_in_board_state i = false) ∧
    (∀ s, s ∉ validIndexStrings →
      frontend_ask_input g (s :: inputs) = frontend_ask_input g inputs) ∧
    (∀ s, s ∈ validIndexStrings → g.is_in_board_state (strToNat s) = true →
      frontend_ask_input g (s :: inputs) = frontend_ask_input g inputs) := by
  refine ⟨?_, ?_, ?_⟩
  · induction inputs with
    | nil => simp [frontend_ask_input] at h
    | cons s rest ih =>
      rw [frontend_ask_input] at h
      by_cases hmem : s ∈ validIndexStrings
      · rw [if_pos hmem] at h
        by_cases hocc : g.is_in_board_state (strToNat s) = true
        · rw [if_pos hocc] at h
          exact ih h
        · rw [if_neg hocc] at h
          injection h with h'
          subst h'
          exact ⟨valid_strToNat_le s hmem, by simpa using hocc⟩
      · rw [if_neg hmem] at h
        exact ih h
  · intro s hs
    simp [frontend_ask_input, hs]
  · intro s hs hocc
    simp [frontend_ask_input, hs, hocc]

/-- Witness for C5: on the input lines "x" (non-numeric), "9" (out of range),
"2" (occupied in mask 20) and "0" (free), the loop returns index 0. -/
theorem c5_witness :
    (0 : Nat) ≤ 8 ∧ (Game_Ops.mk 20 40 0 2).is_in_board_state 0 = false :=
  (c5_ask_input_validates (Game_Ops.mk 20 40 0 2) ["x", "9", "2", "0"] 0 (by decide)).1

/-- `.zfill(9)` on a digit string: left-pad with '0' up to length 9. -/
def zfill9 (s : List Char) : List Char := List.replicate (9 - s.length) '0' ++ s

/-- `bin(m)[2:].zfill(9)`: the binary digits of `m`, most significant first
(a single '0' digit for zero, exactly as `bin`), padded to 9 characters;
`Nat.toDigits 2` produces the same digit string as Python `bin`. -/
def playerBinStr (m : Nat) : List Char := zfill9 (Nat.toDigits 2 m)

/-- `[8 - i for i, v in enumerate(playerBinStr) if v == '1']`: positions are
read in reverse because string index `i` holds board bit `8 - i`. -/
def boardIndicesOf (m : Nat) : List Nat :=
  ((playerBinStr m).enum.filter (fun p => p.2 == '1')).map (fun p => 8 - p.1)

/-- The inner loop `for i in playerIndices: boardData[i] = symbols[n]` as a
left fold of list updates. -/
def fillCells (data : List String) (sym : String) (idxs : List Nat) : List String :=
  idxs.foldl (fun d i => d.set i sym) data

/-- The `boardData` list computed by `frontend_draw_board`: nine one-space
cells, player 0's noted indices set to `symbols[0]`, then player 1's noted
indices set to `symbols[1]`; these nine strings are what the board graphic is
formatted with. -/
def frontend_board_data (symbols0 symbols1 : String) (m0 m1 : Nat) : List String :=
  fillCells (fillCells (List.replicate 9 " ") symbols0 (boardIndicesOf m0))
    symbols1 (boardIndicesOf m1)

/-- For every 9-bit mask, the reverse-indexed decoding of the padded binary
string notes exactly the set bits among the cells 0..8. -/
theorem mem_boardIndicesOf_decide :
    ∀ m < 512, ∀ j < 9, decide (j ∈ boardIndicesOf m) = m.testBit j := by decide

/-- Propositional form of `mem_boardIndicesOf_decide`. -/
theorem mem_boardIndicesOf_iff {m : Nat} (hm : m < 512) {j : Nat} (hj : j < 9) :
    j ∈ boardIndicesOf m ↔ m.testBit j = true := by
  have h := mem_boardIndicesOf_decide m hm j hj
  constructor
  · intro hmem
    rw [← h]
    exact decide_eq_true hmem
  · intro hb
    exact of_decide_eq_true (h ▸ hb)

/-- Filling cells does not change the length of the data list. -/
theorem fillCells_length (sym : String) (idxs : List Nat) (data : List String) :
    (fillCells data sym idxs).length = data.length := by
  induction idxs generalizing data with
  | nil => rfl
  | cons a rest ih =>
    have hstep : fillCells data sym (a :: rest) = fillCells (data.set a sym) sym rest := rfl
    rw [hstep, ih, List.length_set]

/-- Reading cell `j` after the fill: the symbol if `j` was noted, the old
content otherwise. -/
theorem fillCells_getD (sym : String) (idxs : List Nat) (data : List String)
    (j : Nat) (hj : j < data.length) :
    (fillCells data sym idxs).getD j " " =
      if j ∈ idxs then sym else data.getD j " " := by
  induction idxs generalizing data with
  | nil => simp [fillCells]
  | cons a rest ih =>
    have hstep : fillCells data sym (a :: rest) = fillCells (data.set a sym) sym rest := rfl
    rw [hstep, ih (data.set a sym) (by simpa using hj)]
    by_cases hmem : j ∈ rest
    · simp [hmem]
    · by_cases hja : j = a
      · subst hja
        simp [hmem, List.getElem?_set_self (by simpa using hj)]
      · simp [hmem, hja, List.getElem?_set_ne (fun h => hja h.symm)]

/-- C8: for disjoint 9-bit masks, `frontend_draw_board`'s decoding inverts
the bit encoding of `insert_index`: cell `i` of the computed `boardData`
holds player 0's symbol iff bit `i` of mask 0 is set, player 1's symbol iff
bit `i` of mask 1 is set, and a one-space string iff neither bit is set. -/
theorem c8_board_data_decodes (symbols0 symbols1 : String) (m0 m1 : Nat)
    (h0 : m0 < 512) (h1 : m1 < 512) (hd : m0 &&& m1 = 0)
    (i : Nat) (hi : i < 9) :
    (frontend_board_data symbols0 symbols1 m0 m1).getD i " " =
      if m0.testBit i then symbols0
      else if m1.testBit i then symbols1
      else " " := by
  have hlen0 : (fillCells (List.replicate 9 " ") symbols0 (boardIndicesOf m0)).length = 9 := by
    rw [fillCells_length, List.length_replicate]
  unfold frontend_board_data
  rw [fillCells_getD symbols1 (boardIndicesOf m1) _ i (by rw [hlen0]; exact hi),
    fillCells_getD symbols0 (boardIndicesOf m0) _ i (by simpa using hi)]
  have hrep : (List.replicate 9 " ").getD i " " = " " := by
    rw [List.getD_eq_getElem?_getD, List.getElem?_replicate_of_lt hi, Option.getD_some]
  rw [hrep]
  by_cases b0 : m0.testBit i = true
  · have b1 : m1.testBit i = false := by
      have hj := congrArg (fun m => Nat.testBit m i) hd
      simpa [Nat.testBit_and, b0] using hj
    have hm0 : i ∈ boardIndicesOf m0 := (mem_boardIndicesOf_iff h0 hi).mpr b0
    have hm1 : i ∉ boardIndicesOf m1 := fun hmem => by
      rw [(mem_boardIndicesOf_iff h1 hi).mp hmem] at b1
      exact Bool.noConfusion b1
    simp [hm0, hm1, b0]
  · have hm0 : i ∉ boardIndicesOf m0 := fun hmem =>
      b0 ((mem_boardIndicesOf_iff h0 hi).mp hmem)
    by_cases b1 : m1.testBit i = true
    · have hm1 : i ∈ boardIndicesOf m1 := (mem_boardIndicesOf_iff h1 hi).mpr b1
      simp [hm0, hm1, b0, b1]
    · have hm1 : i ∉ boardIndicesOf m1 := fun hmem =>
        b1 ((mem_boardIndicesOf_iff h1 hi).mp hmem)
      simp [hm0, hm1, b0, b1]

/-- Witness for C8 at the docstring example: X holds 20 (cells 2, 4), O holds
40 (cells 3, 5); cell 4 shows X. -/
theorem c8_witness :
    (20 : Nat) < 512 ∧ (40 : Nat) < 512 ∧ (20 : Nat) &&& 40 = 0 ∧ (4 : Nat) < 9 ∧
    (frontend_board_data "X" "O" 20 40).getD 4 " " =
      (if Nat.testBit 20 4 then "X" else if Nat.testBit 40 4 then "O" else " ") :=
  ⟨by decide, by decide, by decide, by decide,
    c8_board_data_decodes "X" "O" 20 40 (by decide) (by decide) (by decide) 4 (by decide)⟩
